import Mathlib

/-!
Verification development for the ppds-orchestration dashboard backend
(`packages/dashboard/src-tauri/src/main.rs`).

The Rust source is shallowly embedded below:
* JSON documents are modelled by the inductive `Ppds.Json` (numeric literals
  are modelled as integers; floating literals play no role in the claims).
* serde's derived `Deserialize`/`Serialize` for `SessionState` and
  `WorktreeStatus` (with `rename_all = "camelCase"` and
  `skip_serializing_if = "Option::is_none"`) are embedded as
  `decodeSessionState` / `encodeSessionState` and friends.  Field lookup is
  by first occurrence; serde's duplicate-field error can only differ on
  objects with a repeated known key, which no claim touches.
* The filesystem seen by the watcher is a function `String → FileState`
  (paths are identified with their file names; the directory prefix plays
  no role in the watched, non-recursive directory).  `FileState.absent`
  means `path.exists()` is false; `unreadable` means the file exists but
  `fs::read_to_string` fails; `invalid` means the bytes are not valid JSON;
  `parsed j` means the bytes parse to the JSON document `j`.
* The snapshot loader's `fs::read_dir` result is `Option (List (String ×
  FileState))`: `none` models a directory that cannot be enumerated.
* The external `orch` subprocess outcome is `SpawnResult`; captured stderr
  is modelled as a `String` (the `from_utf8_lossy` conversion is abstracted).
-/

namespace Ppds

/-- JSON values, as produced by `serde_json` parsing (integer numerals). -/
inductive Json where
  | null
  | bool (b : Bool)
  | num (n : Int)
  | str (s : String)
  | arr (elems : List Json)
  | obj (fields : List (String × Json))

/-- Look a field up in a JSON object's field list (first occurrence). -/
def jsonLookup (name : String) : List (String × Json) → Option Json
  | [] => none
  | (k, v) :: rest => if k = name then some v else jsonLookup name rest

def i32Min : Int := -2147483648

def i32Max : Int := 2147483647

/-- The Rust `i32` type: integers in `[-2^31, 2^31)`. -/
abbrev I32 : Type := {n : Int // i32Min ≤ n ∧ n ≤ i32Max}

/-- Deserializing a Rust `String` field from a JSON value. -/
def asString : Json → Option String
  | .str s => some s
  | _ => none

/-- Deserializing a Rust `bool` field from a JSON value. -/
def asBool : Json → Option Bool
  | .bool b => some b
  | _ => none

/-- Deserializing a Rust `i32` field from a JSON value. -/
def asI32 : Json → Option I32
  | .num n => if h : i32Min ≤ n ∧ n ≤ i32Max then some ⟨n, h⟩ else none
  | _ => none

/-- `WorktreeStatus` from `main.rs` (lines 34-44). -/
structure WorktreeStatus where
  files_changed : I32
  insertions : I32
  deletions : I32
  last_commit_message : Option String
  tests_passing : Option Bool
  deriving DecidableEq

/-- `SessionState` from `main.rs` (lines 13-32). -/
structure SessionState where
  id : String
  issue_number : I32
  issue_title : String
  status : String
  branch : String
  worktree_path : String
  started_at : String
  last_heartbeat : String
  stuck_reason : Option String
  forwarded_message : Option String
  pull_request_url : Option String
  worktree_status : Option WorktreeStatus
  deriving DecidableEq

/-- `SessionEvent` from `main.rs` (lines 47-53). -/
structure SessionEvent where
  event_type : String
  session : Option SessionState
  session_id : Option String
  deriving DecidableEq

/-- A required serde field: the key must be present and convert. -/
def getReq {A : Type} (conv : Json → Option A) (name : String)
    (fields : List (String × Json)) : Option A :=
  (jsonLookup name fields).bind conv

/-- serde `Option` deserialization of one JSON value: `null` becomes `none`,
anything else must convert. -/
def jsonAsOpt {A : Type} (conv : Json → Option A) : Json → Option (Option A)
  | .null => some none
  | j => (conv j).map some

/-- An optional serde field: a missing key or a `null` value becomes `none`. -/
def getOpt {A : Type} (conv : Json → Option A) (name : String)
    (fields : List (String × Json)) : Option (Option A) :=
  match jsonLookup name fields with
  | none => some none
  | some j => jsonAsOpt conv j

/-- serde's derived `Deserialize` for `WorktreeStatus`: camelCase field
names, unknown fields ignored, `Option` fields defaulting to `None`. -/
def decodeWorktreeStatus : Json → Option WorktreeStatus
  | .obj fields =>
      (getReq asI32 "filesChanged" fields).bind fun fc =>
      (getReq asI32 "insertions" fields).bind fun ins =>
      (getReq asI32 "deletions" fields).bind fun del =>
      (getOpt asString "lastCommitMessage" fields).bind fun lcm =>
      (getOpt asBool "testsPassing" fields).bind fun tp =>
      some ⟨fc, ins, del, lcm, tp⟩
  | _ => none

/-- serde's derived `Deserialize` for `SessionState`: camelCase field names,
unknown fields ignored, `Option` fields defaulting to `None`. -/
def decodeSessionState : Json → Option SessionState
  | .obj fields =>
      (getReq asString "id" fields).bind fun i =>
      (getReq asI32 "issueNumber" fields).bind fun inum =>
      (getReq asString "issueTitle" fields).bind fun ititle =>
      (getReq asString "status" fields).bind fun st =>
      (getReq asString "branch" fields).bind fun br =>
      (getReq asString "worktreePath" fields).bind fun wp =>
      (getReq asString "startedAt" fields).bind fun sa =>
      (getReq asString "lastHeartbeat" fields).bind fun lh =>
      (getOpt asString "stuckReason" fields).bind fun sr =>
      (getOpt asString "forwardedMessage" fields).bind fun fm =>
      (getOpt asString "pullRequestUrl" fields).bind fun pr =>
      (getOpt decodeWorktreeStatus "worktreeStatus" fields).bind fun ws =>
      some ⟨i, inum, ititle, st, br, wp, sa, lh, sr, fm, pr, ws⟩
  | _ => none

/-- One optional serde field on the serializing side:
`skip_serializing_if = "Option::is_none"` omits the pair entirely. -/
def optPair (name : String) : Option Json → List (String × Json)
  | none => []
  | some j => [(name, j)]

/-- serde's derived `Serialize` for `WorktreeStatus`. -/
def encodeWorktreeStatus (w : WorktreeStatus) : Json :=
  Json.obj ([("filesChanged", Json.num w.files_changed.val),
             ("insertions", Json.num w.insertions.val),
             ("deletions", Json.num w.deletions.val)]
    ++ optPair "lastCommitMessage" (w.last_commit_message.map Json.str)
    ++ optPair "testsPassing" (w.tests_passing.map Json.bool))

/-- serde's derived `Serialize` for `SessionState`. -/
def encodeSessionState (s : SessionState) : Json :=
  Json.obj ([("id", Json.str s.id),
             ("issueNumber", Json.num s.issue_number.val),
             ("issueTitle", Json.str s.issue_title),
             ("status", Json.str s.status),
             ("branch", Json.str s.branch),
             ("worktreePath", Json.str s.worktree_path),
             ("startedAt", Json.str s.started_at),
             ("lastHeartbeat", Json.str s.last_heartbeat)]
    ++ optPair "stuckReason" (s.stuck_reason.map Json.str)
    ++ optPair "forwardedMessage" (s.forwarded_message.map Json.str)
    ++ optPair "pullRequestUrl" (s.pull_request_url.map Json.str)
    ++ optPair "worktreeStatus" (s.worktree_status.map encodeWorktreeStatus))

/-- The state one path can be in when the code looks at it.  `absent` means
`path.exists()` returns false; `unreadable` means the path exists but
`fs::read_to_string` fails; `invalid` means the bytes are not syntactically
valid JSON; `parsed j` means the bytes parse to the JSON document `j`. -/
inductive FileState where
  | absent
  | unreadable
  | invalid
  | parsed (j : Json)

/-- `path.exists()` in terms of the modelled file state. -/
def fileExists (fs : String → FileState) (path : String) : Bool :=
  match fs path with
  | .absent => false
  | _ => true

/-- The suffix of a character list after its last `.`, when it has one.
Helper for `rustExtension`. -/
def extAux : List Char → Option (List Char)
  | [] => none
  | c :: cs =>
      match extAux cs with
      | some e => some e
      | none => if c = '.' then some cs else none

/-- Rust's `Path::extension()` on a bare file name: the portion after the
last `.`, where a `.` in the leading position never counts as a separator
(so `".json"` has no extension while `"a.json"` and `"..json"` do). -/
def rustExtension (name : String) : Option String :=
  match name.data with
  | [] => none
  | _ :: rest => (extAux rest).map (fun cs => String.mk cs)

/-- One step of suffix stripping, fuelled; helper for `trimEndMatches`. -/
def trimEndAux (pat : List Char) : Nat → List Char → List Char
  | 0, s => s
  | fuel + 1, s =>
      if pat = [] then s
      else if pat.isSuffixOf s then
        trimEndAux pat fuel (s.take (s.length - pat.length))
      else s

/-- Rust's `str::trim_end_matches`: repeatedly removes every trailing
occurrence of `pat` from `s`. -/
def trimEndMatches (s pat : String) : String :=
  String.mk (trimEndAux pat.data s.data.length s.data)

/-- The body of the watcher loop for one affected path
(`main.rs` lines 155-183): filter on the `json` extension, then classify by
existence; an existing file is read and decoded into an `"update"` event, a
missing one becomes a `"remove"` event named by the trimmed file name.
Paths are identified with their file names (the watched directory is
non-recursive, so the directory prefix is fixed). -/
def processPath (fs : String → FileState) (path : String) : Option SessionEvent :=
  if rustExtension path = some "json" then
    match fs path with
    | .absent => some ⟨"remove", none, some (trimEndMatches path ".json")⟩
    | .unreadable => none
    | .invalid => none
    | .parsed j => (decodeSessionState j).map (fun s => ⟨"update", some s, none⟩)
  else none

/-- One raw notification from the `notify` crate: a kind tag and the
affected paths.  The kind tag models `notify::EventKind`. -/
structure NotifyEvent where
  kind : String
  paths : List String

/-- Processing one successful notification batch: every affected path runs
through `processPath`; the events emitted, in order. -/
def processEvent (fs : String → FileState) (ev : NotifyEvent) : List SessionEvent :=
  ev.paths.filterMap (processPath fs)

/-- The loop body of `load_all_sessions` for one directory entry:
extension filter, then read, then decode; any failure skips the entry. -/
def loadEntry (e : String × FileState) : Option SessionState :=
  if rustExtension e.1 = some "json" then
    match e.2 with
    | .parsed j => decodeSessionState j
    | _ => none
  else none

/-- `load_all_sessions` (`main.rs` lines 62-79).  The `read_dir` outcome is
`none` when the directory cannot be enumerated; otherwise the entries, each
a file name with its state. -/
def load_all_sessions (dir : Option (List (String × FileState))) : List SessionState :=
  match dir with
  | none => []
  | some entries => entries.filterMap loadEntry

/-- The fixed path below the home directory (`main.rs` lines 56-59). -/
def sessionsSubdir : String := "/.orchestration/ppds-orchestration/sessions"

/-- `get_sessions_dir`: `none` when the home directory cannot be
determined. -/
def get_sessions_dir (home : Option String) : Option String :=
  home.map (fun h => h ++ sessionsSubdir)

/-- `get_sessions` (`main.rs` lines 82-87): map the sessions directory
through the loader, defaulting to the empty vector.  `readDir` models the
filesystem's directory-enumeration behaviour at each path. -/
def get_sessions (home : Option String)
    (readDir : String → Option (List (String × FileState))) : List SessionState :=
  ((get_sessions_dir home).map (fun d => load_all_sessions (readDir d))).getD []

/-- The outcome of invoking the external `orch` executable:
either the spawn itself fails with an error message, or the process runs to
an exit status (`success` is `status.success()`) with captured stderr. -/
inductive SpawnResult where
  | spawnError (msg : String)
  | output (success : Bool) (stderr : String)

/-- `forward_message` (`main.rs` lines 91-102) as a function of the
subprocess outcome. -/
def forward_message (r : SpawnResult) : Except String Unit :=
  match r with
  | .spawnError e => .error ("Failed to run orch forward: " ++ e)
  | .output true _ => .ok ()
  | .output false stderr => .error stderr

/-- `cancel_session` (`main.rs` lines 106-117) as a function of the
subprocess outcome. -/
def cancel_session (r : SpawnResult) : Except String Unit :=
  match r with
  | .spawnError e => .error ("Failed to run orch cancel: " ++ e)
  | .output true _ => .ok ()
  | .output false stderr => .error stderr

/-- What the spec's words "stripping the recognized extension from the file
name" say: remove one trailing `".json"` when present.  Stated from the
spec for comparison with the source's `trimEndMatches`. -/
def specStripExt (name : String) : String :=
  if ".json".data.isSuffixOf name.data then
    String.mk (name.data.take (name.data.length - 5))
  else name

/-- What the spec's words "name ends in the recognized record extension"
say, stated from the spec for comparison with `rustExtension`. -/
def specEndsWithJson (name : String) : Bool :=
  ".json".data.isSuffixOf name.data

/-- A filesystem in which every path is absent. -/
def absentFs : String → FileState := fun _ => FileState.absent

/-- A filesystem in which every path holds syntactically invalid bytes. -/
def invalidFs : String → FileState := fun _ => FileState.invalid

/-- A filesystem in which no directory can be enumerated. -/
def noDir : String → Option (List (String × FileState)) := fun _ => none

/-- The removal event synthesized for a deleted `abc123.json`. -/
def removeAbcEvent : SessionEvent := ⟨"remove", none, some "abc123"⟩

/-- A concrete JSON object supplying exactly the required fields of
`SessionState`. -/
def exampleFields : List (String × Json) :=
  [("id", Json.str "abc123"),
   ("issueNumber", Json.num 42),
   ("issueTitle", Json.str "Fix the bug"),
   ("status", Json.str "running"),
   ("branch", Json.str "feat/fix"),
   ("worktreePath", Json.str "/tmp/wt"),
   ("startedAt", Json.str "2024-01-01T00:00:00Z"),
   ("lastHeartbeat", Json.str "2024-01-01T00:05:00Z")]

/-- `exampleFields` as one JSON document. -/
def exampleJson : Json := Json.obj exampleFields

/-- The record `exampleJson` decodes to. -/
def exampleSession : SessionState :=
  ⟨"abc123", ⟨42, by decide⟩, "Fix the bug", "running", "feat/fix", "/tmp/wt",
   "2024-01-01T00:00:00Z", "2024-01-01T00:05:00Z", none, none, none, none⟩

/-- A filesystem in which every path holds `exampleJson`. -/
def exampleFs : String → FileState := fun _ => FileState.parsed exampleJson

/-- The recognized field names of `SessionState`, camelCase as on the wire. -/
def sessionFieldNames : List String :=
  ["id", "issueNumber", "issueTitle", "status", "branch", "worktreePath",
   "startedAt", "lastHeartbeat", "stuckReason", "forwardedMessage",
   "pullRequestUrl", "worktreeStatus"]

/-- Equation lemma: `processPath` on a recognized, absent path. -/
theorem processPath_absent (fs : String → FileState) (p : String)
    (hext : rustExtension p = some "json") (hfs : fs p = FileState.absent) :
    processPath fs p = some ⟨"remove", none, some (trimEndMatches p ".json")⟩ := by
  unfold processPath
  rw [if_pos hext, hfs]

/-- Equation lemma: `processPath` on a recognized path whose read fails. -/
theorem processPath_unreadable (fs : String → FileState) (p : String)
    (hext : rustExtension p = some "json") (hfs : fs p = FileState.unreadable) :
    processPath fs p = none := by
  unfold processPath
  rw [if_pos hext, hfs]

/-- Equation lemma: `processPath` on a recognized path with invalid bytes. -/
theorem processPath_invalid (fs : String → FileState) (p : String)
    (hext : rustExtension p = some "json") (hfs : fs p = FileState.invalid) :
    processPath fs p = none := by
  unfold processPath
  rw [if_pos hext, hfs]

/-- Equation lemma: `processPath` on a recognized path holding a JSON
document. -/
theorem processPath_parsed (fs : String → FileState) (p : String) (j : Json)
    (hext : rustExtension p = some "json") (hfs : fs p = FileState.parsed j) :
    processPath fs p =
      (decodeSessionState j).map (fun s => ⟨"update", some s, none⟩) := by
  unfold processPath
  rw [if_pos hext, hfs]

/-- Equation lemma: `processPath` on a path without the `json` extension. -/
theorem processPath_noext (fs : String → FileState) (p : String)
    (hext : ¬rustExtension p = some "json") :
    processPath fs p = none := by
  unfold processPath
  rw [if_neg hext]

/-- Equation lemma: an absent path does not exist. -/
theorem fileExists_absent (fs : String → FileState) (p : String)
    (hfs : fs p = FileState.absent) : fileExists fs p = false := by
  unfold fileExists
  rw [hfs]

/-- Equation lemma: a path holding a parsed document exists. -/
theorem fileExists_parsed (fs : String → FileState) (p : String) (j : Json)
    (hfs : fs p = FileState.parsed j) : fileExists fs p = true := by
  unfold fileExists
  rw [hfs]

/-- C1: for every path processed by the event synthesizer, upsert vs.
removal is determined solely by whether the path exists at the moment of
processing — the notification's kind tag is never consulted (processing a
batch is invariant under changing the kind tag) — and every emitted upsert
event has eventType "update", never "add". -/
theorem C1_existence_determines_event (fs : String → FileState)
    (p k k2 : String) (ps : List String) (ev : SessionEvent)
    (h : processPath fs p = some ev) :
    processEvent fs ⟨k, ps⟩ = processEvent fs ⟨k2, ps⟩ ∧
    (ev.event_type = "update" ↔ fileExists fs p = true) ∧
    (ev.event_type = "remove" ↔ fileExists fs p = false) ∧
    ev.event_type ≠ "add" := by
  refine ⟨rfl, ?_⟩
  by_cases hext : rustExtension p = some "json"
  · cases hfs : fs p
    · rw [processPath_absent fs p hext hfs] at h
      cases h
      rw [fileExists_absent fs p hfs]
      simp
    · rw [processPath_unreadable fs p hext hfs] at h
      exact Option.noConfusion h
    · rw [processPath_invalid fs p hext hfs] at h
      exact Option.noConfusion h
    · rename_i j
      rw [processPath_parsed fs p j hext hfs] at h
      cases hd : decodeSessionState j <;> rw [hd] at h
      · exact Option.noConfusion h
      · cases h
        rw [fileExists_parsed fs p j hfs]
        simp
  · rw [processPath_noext fs p hext] at h
    exact Option.noConfusion h

/-- C1 witness: a deleted `abc123.json` on an all-absent filesystem. -/
theorem C1_witness :
    processEvent absentFs ⟨"Create", ["abc123.json"]⟩ =
      processEvent absentFs ⟨"Remove", ["abc123.json"]⟩ ∧
    (removeAbcEvent.event_type = "update" ↔ fileExists absentFs "abc123.json" = true) ∧
    (removeAbcEvent.event_type = "remove" ↔ fileExists absentFs "abc123.json" = false) ∧
    removeAbcEvent.event_type ≠ "add" :=
  C1_existence_determines_event absentFs "abc123.json" "Create" "Remove"
    ["abc123.json"] removeAbcEvent rfl

/-- C2 counterexample: deleting the watched file `a.json.json` makes the
code emit sessionId "a" (all trailing ".json" occurrences removed by
`trim_end_matches`), whereas stripping the recognized extension from the
file name, as the claim states, yields "a.json". -/
theorem C2_counterexample :
    processPath absentFs "a.json.json" =
      some ⟨"remove", none, some "a"⟩ ∧
    specStripExt "a.json.json" = "a.json" ∧
    ("a" : String) ≠ "a.json" :=
  ⟨rfl, rfl, by decide⟩

/-- C2 amended: for every watched file that no longer exists when its
change is processed, the synthesized removal event carries sessionId equal
to the file name with every trailing ".json" occurrence stripped (which for
file names with a single ".json" suffix coincides with stripping the
extension), and carries no session record. -/
theorem C2_removal_event (fs : String → FileState) (p : String)
    (hext : rustExtension p = some "json") (habs : fs p = FileState.absent) :
    processPath fs p = some ⟨"remove", none, some (trimEndMatches p ".json")⟩ := by
  unfold processPath
  rw [if_pos hext, habs]

/-- C2 witness: deleting `abc123.json` yields a remove event whose
sessionId is `abc123` and which carries no session record. -/
theorem C2_removal_event_witness :
    processPath absentFs "abc123.json" =
      some ⟨"remove", none, some (trimEndMatches "abc123.json" ".json")⟩ ∧
    trimEndMatches "abc123.json" ".json" = "abc123" :=
  ⟨C2_removal_event absentFs "abc123.json" rfl rfl, rfl⟩

/-- C3: a file whose content is syntactically invalid, or misses required
fields, contributes no record to the snapshot result and no synthesized
event; both functions still return normally (the rest of the directory is
unaffected). -/
theorem C3_invalid_contributes_nothing (pre post : List (String × FileState))
    (name : String) (st : FileState) (fs : String → FileState)
    (hst : st = FileState.invalid ∨
      ∃ j, st = FileState.parsed j ∧ decodeSessionState j = none)
    (hfs : fs name = st) :
    load_all_sessions (some (pre ++ (name, st) :: post)) =
      load_all_sessions (some (pre ++ post)) ∧
    processPath fs name = none := by
  have hf : loadEntry (name, st) = none := by
    unfold loadEntry
    rcases hst with h | ⟨j, hj, hd⟩
    · subst h
      split <;> rfl
    · subst hj
      split
      · exact hd
      · rfl
  constructor
  · unfold load_all_sessions
    simp only [List.filterMap_append, List.filterMap_cons, hf]
  · unfold processPath
    rw [hfs]
    rcases hst with h | ⟨j, hj, hd⟩
    · subst h
      split <;> rfl
    · subst hj
      split
      · show (decodeSessionState j).map _ = none
        rw [hd]
        rfl
      · rfl

/-- C3 witness: one syntactically invalid `bad.json` in an otherwise empty
directory. -/
theorem C3_witness :
    load_all_sessions (some [("bad.json", FileState.invalid)]) = [] ∧
    processPath invalidFs "bad.json" = none := by
  have h := C3_invalid_contributes_nothing [] [] "bad.json" FileState.invalid
    invalidFs (Or.inl rfl) rfl
  exact ⟨h.1, h.2⟩

/-- C5: when the sessions directory cannot be enumerated, the loader and
`get_sessions` return the empty sequence rather than an error. -/
theorem C5_unenumerable_dir_empty (h : String)
    (rd : String → Option (List (String × FileState)))
    (hrd : rd (h ++ sessionsSubdir) = none) :
    load_all_sessions none = [] ∧ get_sessions (some h) rd = [] := by
  refine ⟨rfl, ?_⟩
  show load_all_sessions (rd (h ++ sessionsSubdir)) = []
  rw [hrd]
  exact rfl

/-- C5 witness: a home of `/home/user` over a filesystem in which no
directory can be enumerated. -/
theorem C5_witness :
    load_all_sessions none = [] ∧ get_sessions (some "/home/user") noDir = [] :=
  C5_unenumerable_dir_empty "/home/user" noDir rfl

/-- C6 counterexample: when the spawn itself fails with message "boom", the
error returned by `forward_message` is the spawn error message prefixed
with fixed context, not the spawn error message itself as the claim
states. -/
theorem C6_counterexample :
    forward_message (SpawnResult.spawnError "boom") =
      Except.error "Failed to run orch forward: boom" ∧
    ("Failed to run orch forward: boom" : String) ≠ "boom" :=
  ⟨rfl, by decide⟩

/-- C6 amended: for forward_message and cancel_session, exit status zero
returns success with no payload; a non-zero exit returns an error equal to
the captured standard-error text; a spawn failure returns the spawn error
message prefixed with "Failed to run orch forward: " (resp. "Failed to run
orch cancel: ").  Each invocation maps a single subprocess outcome to its
result; no retry is performed. -/
theorem C6_amended_command_results : ∀ (se msg : String),
    forward_message (SpawnResult.output true se) = Except.ok () ∧
    forward_message (SpawnResult.output false se) = Except.error se ∧
    forward_message (SpawnResult.spawnError msg) =
      Except.error ("Failed to run orch forward: " ++ msg) ∧
    cancel_session (SpawnResult.output true se) = Except.ok () ∧
    cancel_session (SpawnResult.output false se) = Except.error se ∧
    cancel_session (SpawnResult.spawnError msg) =
      Except.error ("Failed to run orch cancel: " ++ msg) :=
  fun _ _ => ⟨rfl, rfl, rfl, rfl, rfl, rfl⟩

/-- C7: every event the synthesizer emits is either an upsert with the
session field present and the sessionId field absent, or a removal with the
sessionId field present and the session field absent. -/
theorem C7_event_shape (fs : String → FileState) (p : String) (ev : SessionEvent)
    (h : processPath fs p = some ev) :
    (ev.event_type = "update" ∧ ev.session.isSome = true ∧ ev.session_id = none) ∨
    (ev.event_type = "remove" ∧ ev.session = none ∧ ev.session_id.isSome = true) := by
  by_cases hext : rustExtension p = some "json"
  · cases hfs : fs p
    · rw [processPath_absent fs p hext hfs] at h
      cases h
      exact Or.inr ⟨rfl, rfl, rfl⟩
    · rw [processPath_unreadable fs p hext hfs] at h
      exact Option.noConfusion h
    · rw [processPath_invalid fs p hext hfs] at h
      exact Option.noConfusion h
    · rename_i j
      rw [processPath_parsed fs p j hext hfs] at h
      cases hd : decodeSessionState j <;> rw [hd] at h
      · exact Option.noConfusion h
      · cases h
        exact Or.inl ⟨rfl, rfl, rfl⟩
  · rw [processPath_noext fs p hext] at h
    exact Option.noConfusion h

/-- C7 witness: the removal event for a deleted `abc123.json`. -/
theorem C7_event_shape_witness :
    (removeAbcEvent.event_type = "update" ∧ removeAbcEvent.session.isSome = true ∧
      removeAbcEvent.session_id = none) ∨
    (removeAbcEvent.event_type = "remove" ∧ removeAbcEvent.session = none ∧
      removeAbcEvent.session_id.isSome = true) :=
  C7_event_shape absentFs "abc123.json" removeAbcEvent rfl

/-- Bind on a present optional value, for rewriting decoder chains. -/
theorem option_bind_some {α β : Type} (a : α) (f : α → Option β) :
    (Option.some a).bind f = f a := rfl

/-- An `i32` field decodes back to itself. -/
theorem asI32_val (x : I32) : asI32 (Json.num x.val) = some x := by
  rcases x with ⟨n, hn⟩
  show (if h : i32Min ≤ n ∧ n ≤ i32Max then some (⟨n, h⟩ : I32) else none) =
    some ⟨n, hn⟩
  rw [dif_pos hn]

/-- WorktreeStatus round-trips through its serde encoding. -/
theorem wt_roundtrip (w : WorktreeStatus) :
    decodeWorktreeStatus (encodeWorktreeStatus w) = some w := by
  rcases w with ⟨fc, ins, del, lcm, tp⟩
  rcases lcm with _ | a <;> rcases tp with _ | b <;>
    simp [encodeWorktreeStatus, decodeWorktreeStatus, optPair, getReq, getOpt,
      jsonLookup, jsonAsOpt, asString, asBool, asI32_val, option_bind_some]

/-- serde `Option` deserialization undoes a serialized present string. -/
theorem jsonAsOpt_str (a : String) :
    jsonAsOpt asString (Json.str a) = some (some a) := rfl

/-- serde `Option` deserialization undoes a serialized present bool. -/
theorem jsonAsOpt_bool (b : Bool) :
    jsonAsOpt asBool (Json.bool b) = some (some b) := rfl

/-- serde `Option` deserialization undoes a serialized present
WorktreeStatus. -/
theorem jsonAsOpt_wt (w : WorktreeStatus) :
    jsonAsOpt decodeWorktreeStatus (encodeWorktreeStatus w) = some (some w) := by
  show (decodeWorktreeStatus (encodeWorktreeStatus w)).map some = some (some w)
  rw [wt_roundtrip w]
  rfl

/-- C4: every SessionRecord, over every combination of present and absent
optional fields and nested WorktreeStatus, round-trips through its serde
encoding field-for-field. -/
theorem C4_roundtrip (s : SessionState) :
    decodeSessionState (encodeSessionState s) = some s := by
  rcases s with ⟨i, inum, it, st, br, wp, sa, lh, sr, fm, pr, ws⟩
  rcases sr with _ | a <;> rcases fm with _ | b <;> rcases pr with _ | c <;>
    rcases ws with _ | w <;>
    simp [encodeSessionState, decodeSessionState, optPair, getReq, getOpt,
      jsonLookup, jsonAsOpt_str, jsonAsOpt_wt, asString, asI32_val,
      option_bind_some]

/-- Equation lemma: `extAux` on a cons whose tail holds an extension. -/
theorem extAux_cons_some (c : Char) (cs e : List Char)
    (h : extAux cs = some e) : extAux (c :: cs) = some e := by
  unfold extAux
  rw [h]

/-- Equation lemma: `extAux` on a cons whose tail holds no extension. -/
theorem extAux_cons_none (c : Char) (cs : List Char) (h : extAux cs = none) :
    extAux (c :: cs) = if c = '.' then some cs else none := by
  unfold extAux
  rw [h]

/-- A list ending in `.json` has extension `json` whatever comes before. -/
theorem extAux_append_dotjson (pre : List Char) :
    extAux (pre ++ ['.', 'j', 's', 'o', 'n']) = some ['j', 's', 'o', 'n'] := by
  induction pre with
  | nil => rfl
  | cons c pre ih =>
    rw [List.cons_append]
    exact extAux_cons_some c _ _ ih

/-- When `extAux` finds an extension, the list splits at the last dot. -/
theorem extAux_some (l : List Char) : ∀ e : List Char, extAux l = some e →
    ∃ pre, l = pre ++ '.' :: e := by
  induction l with
  | nil =>
    intro e h
    exact Option.noConfusion h
  | cons c cs ih =>
    intro e h
    cases hcs : extAux cs with
    | some e2 =>
      rw [extAux_cons_some c cs e2 hcs] at h
      injection h with h2
      subst h2
      obtain ⟨pre, hpre⟩ := ih e2 hcs
      exact ⟨c :: pre, by rw [hpre, List.cons_append]⟩
    | none =>
      rw [extAux_cons_none c cs hcs] at h
      by_cases hc : c = '.'
      · rw [if_pos hc] at h
        injection h with h2
        subst h2
        refine ⟨[], ?_⟩
        rw [hc]
        rfl
      · rw [if_neg hc] at h
        exact Option.noConfusion h

/-- `extAux` yields `json` exactly when the list ends in `.json`. -/
theorem extAux_eq_json (l : List Char) :
    extAux l = some ['j', 's', 'o', 'n'] ↔ ['.', 'j', 's', 'o', 'n'] <:+ l := by
  constructor
  · intro h
    obtain ⟨pre, hpre⟩ := extAux_some l ['j', 's', 'o', 'n'] h
    rw [hpre]
    exact List.suffix_append pre ('.' :: ['j', 's', 'o', 'n'])
  · rintro ⟨pre, hpre⟩
    rw [← hpre]
    exact extAux_append_dotjson pre

/-- The source's extension check agrees with the spec's "name ends in
`.json`" exactly away from the bare name `".json"`. -/
theorem rustExtension_json_iff (name : String) :
    rustExtension name = some "json" ↔
      (specEndsWithJson name = true ∧ name ≠ ".json") := by
  unfold rustExtension specEndsWithJson
  rw [List.isSuffixOf_iff_suffix, ne_eq, String.ext_iff]
  cases hd : name.data with
  | nil =>
    apply iff_of_false
    · intro h
      exact Option.noConfusion h
    · rintro ⟨hsuf, _⟩
      exact absurd (List.suffix_nil.mp hsuf) (by decide)
  | cons c rest =>
    rw [Option.map_eq_some']
    constructor
    · rintro ⟨e, he, hs⟩
      have he2 : e = "json".data := congrArg String.data hs
      have he3 : extAux rest = some ['j', 's', 'o', 'n'] := by
        rw [he2] at he
        exact he
      have hsuf : ['.', 'j', 's', 'o', 'n'] <:+ rest :=
        (extAux_eq_json rest).mp he3
      refine ⟨List.suffix_cons_iff.mpr (Or.inr hsuf), ?_⟩
      intro heq
      injection heq with h1 h2
      rw [h2] at hsuf
      exact absurd hsuf.length_le (by decide)
    · rintro ⟨hsuf, hne2⟩
      rcases List.suffix_cons_iff.mp hsuf with hs | hs
      · exact absurd hs.symm hne2
      · refine ⟨"json".data, ?_, rfl⟩
        exact (extAux_eq_json rest).mpr hs

/-- C8 counterexample: the entry named exactly ".json" ends in the
recognized extension and holds a decodable record, yet both the loader and
the watcher skip it (Rust's `Path::extension()` gives a hidden file no
extension), producing no record and no event. -/
theorem C8_counterexample :
    specEndsWithJson ".json" = true ∧
    decodeSessionState exampleJson = some exampleSession ∧
    load_all_sessions (some [(".json", FileState.parsed exampleJson)]) = [] ∧
    processPath exampleFs ".json" = none ∧
    processPath absentFs ".json" = none :=
  ⟨rfl, rfl, rfl, rfl, rfl⟩

/-- C8 amended: both the loader and the watcher process exactly those
entries/paths whose Rust extension is "json", i.e. whose name ends in
".json" and is not the bare ".json": every skipped entry contributes no
record and no event, and every surviving entry is read and decoded (loader)
or classified and decoded (watcher). -/
theorem C8_extension_filter (name : String) (st : FileState)
    (fs : String → FileState) (pre post : List (String × FileState)) (j : Json) :
    (rustExtension name = some "json" ↔
      (specEndsWithJson name = true ∧ name ≠ ".json")) ∧
    (rustExtension name ≠ some "json" →
      load_all_sessions (some (pre ++ (name, st) :: post)) =
        load_all_sessions (some (pre ++ post)) ∧
      processPath fs name = none) ∧
    (rustExtension name = some "json" →
      load_all_sessions (some (pre ++ (name, FileState.parsed j) :: post)) =
        load_all_sessions (some pre) ++ (decodeSessionState j).toList ++
          load_all_sessions (some post) ∧
      (fs name = FileState.absent →
        processPath fs name =
          some ⟨"remove", none, some (trimEndMatches name ".json")⟩) ∧
      (fs name = FileState.parsed j →
        processPath fs name =
          (decodeSessionState j).map (fun s => ⟨"update", some s, none⟩))) := by
  refine ⟨rustExtension_json_iff name, ?_, ?_⟩
  · intro hext
    have hf : loadEntry (name, st) = none := by
      unfold loadEntry
      rw [if_neg hext]
    constructor
    · unfold load_all_sessions
      simp only [List.filterMap_append, List.filterMap_cons, hf]
    · exact processPath_noext fs name hext
  · intro hext
    refine ⟨?_, processPath_absent fs name hext,
      fun hfs => processPath_parsed fs name j hext hfs⟩
    have hf : loadEntry (name, FileState.parsed j) = decodeSessionState j := by
      unfold loadEntry
      rw [if_pos hext]
    unfold load_all_sessions
    cases hd : decodeSessionState j <;>
      simp [List.filterMap_append, List.filterMap_cons, hf, hd]

/-- C8 witness: a `nope.txt` entry is skipped by loader and watcher; an
`abc123.json` entry is read and decoded by both. -/
theorem C8_witness :
    load_all_sessions (some [("nope.txt", FileState.parsed exampleJson)]) =
      load_all_sessions (some []) ∧
    processPath exampleFs "nope.txt" = none ∧
    load_all_sessions (some [("abc123.json", FileState.parsed exampleJson)]) =
      load_all_sessions (some []) ++ (decodeSessionState exampleJson).toList ++
        load_all_sessions (some []) ∧
    processPath exampleFs "abc123.json" =
      (decodeSessionState exampleJson).map
        (fun s => ⟨"update", some s, none⟩) := by
  have h1 := C8_extension_filter "nope.txt" (FileState.parsed exampleJson)
    exampleFs [] [] exampleJson
  have h2 := C8_extension_filter "abc123.json" (FileState.parsed exampleJson)
    exampleFs [] [] exampleJson
  have ha := h1.2.1 (by decide)
  have hb := h2.2.2 (by decide)
  exact ⟨ha.1, ha.2, hb.1, hb.2.2 rfl⟩

/-- Appending fields whose keys all differ from `n` does not change a
lookup of `n`. -/
theorem jsonLookup_append (n : String) (l extra : List (String × Json))
    (hx : ∀ kv ∈ extra, kv.1 ≠ n) :
    jsonLookup n (l ++ extra) = jsonLookup n l := by
  induction l with
  | nil =>
    simp only [List.nil_append]
    induction extra with
    | nil => rfl
    | cons kv rest ih =>
      unfold jsonLookup
      rcases kv with ⟨k, v⟩
      rw [if_neg (hx (k, v) (List.mem_cons_self _ _))]
      exact ih (fun kv2 h2 => hx kv2 (List.mem_cons_of_mem _ h2))
  | cons kv rest ih =>
    rcases kv with ⟨k, v⟩
    rw [List.cons_append]
    unfold jsonLookup
    by_cases hk : k = n
    · rw [if_pos hk, if_pos hk]
    · rw [if_neg hk, if_neg hk]
      exact ih

/-- C9: the decoder does not reject unknown fields — appending fields with
unrecognized names to a payload that decodes successfully leaves the decoded
record unchanged; the extra fields are silently ignored. -/
theorem C9_unknown_fields_ignored (l extra : List (String × Json))
    (s : SessionState)
    (hs : decodeSessionState (Json.obj l) = some s)
    (hx : ∀ kv ∈ extra, kv.1 ∉ sessionFieldNames) :
    decodeSessionState (Json.obj (l ++ extra)) = some s := by
  have key : ∀ n, n ∈ sessionFieldNames →
      jsonLookup n (l ++ extra) = jsonLookup n l := by
    intro n hn
    refine jsonLookup_append n l extra ?_
    intro kv hkv he
    exact hx kv hkv (he ▸ hn)
  rw [← hs]
  have k1 := key "id" (by decide)
  have k2 := key "issueNumber" (by decide)
  have k3 := key "issueTitle" (by decide)
  have k4 := key "status" (by decide)
  have k5 := key "branch" (by decide)
  have k6 := key "worktreePath" (by decide)
  have k7 := key "startedAt" (by decide)
  have k8 := key "lastHeartbeat" (by decide)
  have k9 := key "stuckReason" (by decide)
  have k10 := key "forwardedMessage" (by decide)
  have k11 := key "pullRequestUrl" (by decide)
  have k12 := key "worktreeStatus" (by decide)
  simp only [decodeSessionState, getReq, getOpt, k1, k2, k3, k4, k5, k6, k7,
    k8, k9, k10, k11, k12]

/-- C9 witness: adding an unrecognized "color" field to a payload leaves
the decoded record unchanged. -/
theorem C9_witness :
    decodeSessionState (Json.obj (exampleFields ++ [("color", Json.str "red")])) =
      some exampleSession :=
  C9_unknown_fields_ignored exampleFields [("color", Json.str "red")]
    exampleSession rfl (by decide)

/-- C10: when the home directory cannot be determined, get_sessions returns
the empty sequence for every filesystem, rather than panicking or erroring. -/
theorem C10_no_home_dir_empty
    (rd : String → Option (List (String × FileState))) :
    get_sessions none rd = [] := rfl

end Ppds
